import Mathlib

/-!
Shallow embedding of the TSMOM repository's core
(`tsmom/strategy.py`, `backtest/engine.py`, `analysis/stats.py`).

Prices are modelled as rationals, timestamps as bar indices (the
engine iterates the signal frame positionally and the force-close uses
`signals_df.index[-1]`, i.e. the last position).  Pandas `NaN`
(insufficient warm-up history) is modelled as `Option.none`; NaN
comparisons in pandas are `False`, which the classification below
reproduces by mapping `none` to signal value `0`.
-/

/-- `SignalState` enum from `tsmom/strategy.py`. -/
inductive SignalState
  | LONG
  | SHORT
  | FLAT
deriving DecidableEq, Repr

/-- The `Trade` dataclass from `backtest/engine.py`: exit fields are
`None` until `close` fills them. -/
structure Trade where
  entry_time : ℕ
  entry_price : ℚ
  entry_state : SignalState
  exit_time : Option ℕ
  exit_price : Option ℚ
  pnl : Option ℚ
  pnl_pct : Option ℚ
  bars_held : Option ℕ
deriving DecidableEq, Repr

/-- `Trade.close`: fills the exit fields.  The LONG branch books
`exit - entry`; the `else` branch (SHORT) books `entry - exit`;
`bars_held` is the elapsed time between entry and exit. -/
def Trade.close (t : Trade) (time : ℕ) (price : ℚ) : Trade :=
  { t with
    exit_time := some time
    exit_price := some price
    bars_held := some (time - t.entry_time)
    pnl := some (if t.entry_state = SignalState.LONG
                 then price - t.entry_price
                 else t.entry_price - price)
    pnl_pct := some ((if t.entry_state = SignalState.LONG
                      then price - t.entry_price
                      else t.entry_price - price) / t.entry_price) }

/-- `Trade.is_closed`: a trade is closed when `exit_price` is set. -/
def Trade.is_closed (t : Trade) : Bool :=
  t.exit_price.isSome

/-- The `TSMOM` strategy object: the constructor stores the three
configuration values without any validation. -/
structure TSMOM where
  period_short : ℤ
  period_long : ℤ
  threshold : ℚ
deriving DecidableEq, Repr

/-- `TSMOM.__init__` from `tsmom/strategy.py`: plain assignment of the
arguments, no checks. -/
def TSMOM.init (period_short period_long : ℤ) (threshold : ℚ) : TSMOM :=
  { period_short := period_short
    period_long := period_long
    threshold := threshold }

/-- `pandas.Series.pct_change(periods=p)`, i.e. `prices / prices.shift(p) - 1`:
entry `i` is `prices[i] / prices[i - p] - 1` when `i - p` is in range,
`NaN` (here `none`) otherwise. -/
def pctChange (prices : List ℚ) (period : ℤ) : List (Option ℚ) :=
  (List.range prices.length).map fun (i : ℕ) =>
    let j : ℤ := (i : ℤ) - period
    if 0 ≤ j ∧ j < (prices.length : ℤ) then
      some (prices.getD i 0 / prices.getD j.toNat 0 - 1)
    else
      none

/-- `TSMOM.calculate_returns`: percentage returns over `period` bars. -/
def TSMOM.calculate_returns (_ : TSMOM) (prices : List ℚ) (period : ℤ) :
    List (Option ℚ) :=
  pctChange prices period

/-- One row of the signal frame produced by `TSMOM.generate_signals`. -/
structure SignalRow where
  close : ℚ
  momentum_short : Option ℚ
  momentum_long : Option ℚ
  signal_score : Option ℚ
  signal_value : ℤ
  signal_state : SignalState
deriving DecidableEq, Repr

/-- Default row used with `List.getD` (never selected in-bounds). -/
def dfltRow : SignalRow :=
  { close := 0, momentum_short := none, momentum_long := none
    signal_score := none, signal_value := 0
    signal_state := SignalState.FLAT }

/-- The composite score column: `0.4 * momentum_short + 0.6 * momentum_long`,
`NaN` (none) when either momentum is `NaN`. -/
def compositeScore (ms ml : Option ℚ) : Option ℚ :=
  match ms, ml with
  | some a, some b => some (2/5 * a + 3/5 * b)
  | _, _ => none

/-- The `signal_value` column: starts at `0`, set to `1` where
`score > threshold`, then set to `-1` where `score < -threshold` (so the
`-1` assignment wins when both conditions hold).  A `NaN` score compares
`False` on both conditions and stays `0`. -/
def signalValue (score : Option ℚ) (threshold : ℚ) : ℤ :=
  match score with
  | none => 0
  | some s => if s < -threshold then -1 else if s > threshold then 1 else 0

/-- The `signal_state` column: the `{1: LONG, 0: FLAT, -1: SHORT}` map. -/
def stateOfValue (v : ℤ) : SignalState :=
  if v = 1 then SignalState.LONG
  else if v = -1 then SignalState.SHORT
  else SignalState.FLAT

/-- `TSMOM.generate_signals`: one output row per input bar, carrying the
close, both momentum columns, the composite score and its
classification. -/
def TSMOM.generate_signals (cfg : TSMOM) (closes : List ℚ) : List SignalRow :=
  let ms := cfg.calculate_returns closes cfg.period_short
  let ml := cfg.calculate_returns closes cfg.period_long
  (List.range closes.length).map fun i =>
    let s := compositeScore (ms.getD i none) (ml.getD i none)
    let v := signalValue s cfg.threshold
    { close := closes.getD i 0
      momentum_short := ms.getD i none
      momentum_long := ml.getD i none
      signal_score := s
      signal_value := v
      signal_state := stateOfValue v }

/-- `BacktestResult`: trades plus the equity curve (a list of
(timestamp, capital) points, timestamps being bar indices). -/
structure BacktestResult where
  trades : List Trade
  equity_curve : List (ℕ × ℚ)
deriving DecidableEq, Repr

/-- The `BacktestEngine` object: the constructor stores the strategy
and the initial capital without any validation. -/
structure BacktestEngine where
  strategy : TSMOM
  initial_capital : ℚ
deriving DecidableEq, Repr

/-- `BacktestEngine.__init__` from `backtest/engine.py`: plain
assignment of the arguments, no checks. -/
def BacktestEngine.init (strategy : TSMOM) (initial_capital : ℚ) :
    BacktestEngine :=
  { strategy := strategy, initial_capital := initial_capital }

/-- The signal-iteration loop of `BacktestEngine.run`: at each row, if
the signal state changed, close the open position (if any) at this
bar, open a new one unless the new state is FLAT, and record the new
state.  Returns the accumulated closed trades, the still-open position
and the final state. -/
def stepAll : List (ℕ × SignalRow) → Option Trade → SignalState →
    List Trade → List Trade × Option Trade × SignalState
  | [], pos, st, acc => (acc, pos, st)
  | (i, row) :: rest, pos, st, acc =>
    if row.signal_state = st then
      stepAll rest pos st acc
    else
      let acc2 := match pos with
        | some t => acc ++ [t.close i row.close]
        | none => acc
      let pos2 : Option Trade :=
        if row.signal_state = SignalState.FLAT then none
        else some { entry_time := i, entry_price := row.close
                    entry_state := row.signal_state
                    exit_time := none, exit_price := none
                    pnl := none, pnl_pct := none, bars_held := none }
      stepAll rest pos2 row.signal_state acc2

/-- The linear scan of `_calculate_equity_curve` looking for the first
trade with `entry_time <= idx and (exit_time is None or exit_time >= idx)`. -/
def activeTradeAt (trades : List Trade) (idx : ℕ) : Option Trade :=
  trades.find? fun t =>
    decide (t.entry_time ≤ idx) &&
      (match t.exit_time with
       | none => true
       | some x => decide (idx ≤ x))

/-- Unrealized P&L of an active trade marked at the live price: the
LONG branch books `price - entry`, the `else` branch (SHORT) books
`entry - price`. -/
def unrealizedPnl (t : Trade) (price : ℚ) : ℚ :=
  if t.entry_state = SignalState.LONG then price - t.entry_price
  else t.entry_price - price

/-- The per-bar loop of `_calculate_equity_curve`, carrying the
`cumulative_pnl` accumulator: the bar's capital is written before the
accumulator absorbs the pnl of a trade exiting at this bar. -/
def equityLoop (init : ℚ) (trades : List Trade) :
    List (ℕ × ℚ) → ℚ → List (ℕ × ℚ)
  | [], _ => []
  | (idx, price) :: rest, cum =>
    let active := activeTradeAt trades idx
    let cap := match active with
      | some t => init + cum + unrealizedPnl t price
      | none => init + cum
    let cum2 := match active with
      | some t => if t.exit_time = some idx then cum + t.pnl.getD 0 else cum
      | none => cum
    (idx, cap) :: equityLoop init trades rest cum2

/-- The (index, close) pairs the equity loop iterates over. -/
def eqRows (sig : List SignalRow) : List (ℕ × ℚ) :=
  sig.enum.map fun p => (p.1, p.2.close)

/-- `BacktestEngine._calculate_equity_curve`. -/
def calcEquityCurve (init : ℚ) (sig : List SignalRow) (trades : List Trade) :
    List (ℕ × ℚ) :=
  equityLoop init trades (eqRows sig) 0

/-- `BacktestEngine.run`: generate the signals, run the state-machine
loop, force-close a still-open position at the last bar, and build the
equity curve. -/
def BacktestEngine.run (e : BacktestEngine) (closes : List ℚ) :
    BacktestResult :=
  let sig := e.strategy.generate_signals closes
  let r := stepAll sig.enum none SignalState.FLAT []
  let trades := match r.2.1 with
    | some t =>
        r.1 ++ [t.close (sig.length - 1) (((sig.getLast?).map SignalRow.close).getD 0)]
    | none => r.1
  { trades := trades, equity_curve := calcEquityCurve e.initial_capital sig trades }

/-- Python's `max(l)` with the `if l else d` guard used in
`get_summary_stats` (`max(xs) if xs else 0`). -/
def pyMax {α} [Max α] : List α → α → α
  | [], d => d
  | x :: xs, _ => xs.foldl max x

/-- Python's `min(l)` with the `if l else d` guard used in
`get_summary_stats` (`min(xs) if xs else 0`). -/
def pyMin {α} [Min α] : List α → α → α
  | [], d => d
  | x :: xs, _ => xs.foldl min x

/-- `numpy.mean` over a list of rationals (only used on non-empty lists). -/
def listMean (l : List ℚ) : ℚ :=
  l.sum / l.length

/-- The dictionary returned by `PerformanceAnalyzer.get_summary_stats`. -/
structure SummaryStats where
  total_trades : ℕ
  winning_trades : ℕ
  losing_trades : ℕ
  win_rate : ℚ
  total_pnl : ℚ
  avg_pnl : ℚ
  avg_pnl_pct : ℚ
  largest_win : ℚ
  largest_loss : ℚ
  avg_bars_held : ℚ
  max_bars_held : ℕ
  min_bars_held : ℕ
deriving DecidableEq, Repr

/-- `PerformanceAnalyzer.get_summary_stats`.  Mirrors `analysis/stats.py`:
statistics over the closed trades; the holding-duration lists are built
with `[t.bars_held for t in closed_trades if t.bars_held]`, whose
truthiness test drops both `None` and `0`. -/
def getSummaryStats (trades : List Trade) : SummaryStats :=
  let closed := trades.filter fun t => t.is_closed
  match closed with
  | [] =>
    { total_trades := 0, winning_trades := 0, losing_trades := 0
      win_rate := 0, total_pnl := 0, avg_pnl := 0, avg_pnl_pct := 0
      largest_win := 0, largest_loss := 0, avg_bars_held := 0
      max_bars_held := 0, min_bars_held := 0 }
  | _ :: _ =>
    let pnls := closed.map fun t => t.pnl.getD 0
    let pnls_pct := closed.map fun t => t.pnl_pct.getD 0
    let bars : List ℕ := closed.filterMap fun t =>
      match t.bars_held with
      | some b => if b = 0 then none else some b
      | none => none
    let winning := (closed.filter fun t => 0 < t.pnl.getD 0).length
    { total_trades := closed.length
      winning_trades := winning
      losing_trades := (closed.filter fun t => t.pnl.getD 0 < 0).length
      win_rate := if 0 < closed.length then (winning : ℚ) / closed.length else 0
      total_pnl := pnls.sum
      avg_pnl := listMean pnls
      avg_pnl_pct := listMean pnls_pct
      largest_win := pyMax pnls 0
      largest_loss := pyMin pnls 0
      avg_bars_held := if bars.isEmpty then 0 else listMean (bars.map fun b => (b : ℚ))
      max_bars_held := pyMax bars 0
      min_bars_held := pyMin bars 0 }

/-- The realized-pnl contribution the equity loop books at one bar:
the pnl of the active trade when that trade's `exit_time` equals the
bar's timestamp, else nothing. -/
def barRealized (trades : List Trade) (r : ℕ × ℚ) : ℚ :=
  match activeTradeAt trades r.1 with
  | some t => if t.exit_time = some r.1 then t.pnl.getD 0 else 0
  | none => 0

/-- Realized pnl accumulated strictly before bar `i` of the equity
loop: the sum of the booked exit pnls over the first `i` bars. -/
def realizedBefore (trades : List Trade) (rows : List (ℕ × ℚ)) (i : ℕ) : ℚ :=
  ((rows.take i).map (barRealized trades)).sum

/-- The capital the equity loop should report at a bar, phrased
without the loop's accumulator: initial capital plus realized pnl from
earlier bars, plus the unrealized pnl of the active trade if any. -/
def barCapital (init : ℚ) (trades : List Trade) (rows : List (ℕ × ℚ))
    (i : ℕ) : ℚ :=
  init + realizedBefore trades rows i +
    (match activeTradeAt trades (rows.getD i (0, 0)).1 with
     | some t => unrealizedPnl t (rows.getD i (0, 0)).2
     | none => 0)

/-- Stated from the specification's words, for comparison with the
source constructor `TSMOM.init`: "InvalidConfiguration: non-positive
period or negative threshold — reject at construction." -/
def checkedTSMOMConstructor (ps pl : ℤ) (thr : ℚ) : Option TSMOM :=
  if 0 < ps ∧ 0 < pl ∧ 0 ≤ thr then some (TSMOM.init ps pl thr) else none

/-- A closed trade as `Trade.close` produces it: exit fields set, exit
not before entry, `bars_held` the elapsed time, pnl by the LONG/SHORT
sign convention and `pnl_pct = pnl / entry_price`. -/
def TradeClosedGood (t : Trade) : Prop :=
  ∃ xt xp, t.exit_time = some xt ∧ t.exit_price = some xp ∧
    t.entry_time ≤ xt ∧ t.bars_held = some (xt - t.entry_time) ∧
    t.pnl = some (if t.entry_state = SignalState.LONG
                  then xp - t.entry_price
                  else t.entry_price - xp) ∧
    t.pnl_pct = some ((if t.entry_state = SignalState.LONG
                       then xp - t.entry_price
                       else t.entry_price - xp) / t.entry_price)

/-- Trade `a` is over before trade `b` begins: `a`'s exit time exists
and is at most `b`'s entry time. -/
def TradeSep (a b : Trade) : Prop :=
  ∃ xa, a.exit_time = some xa ∧ xa ≤ b.entry_time

/-- A still-open position of the state-machine loop over the signal
rows `sig`: no exit yet, a non-FLAT direction that equals the signal
state of its entry bar, and an in-range entry bar. -/
def OpenGood (sig : List SignalRow) (t : Trade) : Prop :=
  t.exit_time = none ∧ t.entry_state ≠ SignalState.FLAT ∧
    t.entry_state = ((sig.getD t.entry_time dfltRow).signal_state) ∧
    t.entry_time < sig.length

/-- Well-formedness of an emitted trade list: pairwise separated in
list order, and each trade closed with the sign convention, entered in
a non-FLAT direction matching the signal at its entry bar. -/
def GoodTrades (sig : List SignalRow) (trades : List Trade) : Prop :=
  trades.Pairwise TradeSep ∧
    ∀ t ∈ trades, TradeClosedGood t ∧ t.entry_state ≠ SignalState.FLAT ∧
      t.entry_state = ((sig.getD t.entry_time dfltRow).signal_state) ∧
      t.entry_time < sig.length

/-- The sign law of claimed form, per trade: some exit price and pnl
exist, `pnl_pct = pnl / entry_price`, LONG pnl is `exit - entry` and
SHORT pnl is `entry - exit`. -/
def SignLawFor (t : Trade) : Prop :=
  ∃ xp p, t.exit_price = some xp ∧ t.pnl = some p ∧
    t.pnl_pct = some (p / t.entry_price) ∧
    (t.entry_state = SignalState.LONG → p = xp - t.entry_price) ∧
    (t.entry_state = SignalState.SHORT → p = t.entry_price - xp)

/-- Classification of one signal row (claim C3's property at bar `i`):
LONG exactly on `score > threshold`, SHORT exactly on
`score < -threshold`, FLAT whenever the score is undefined. -/
def StateClassifiedAt (cfg : TSMOM) (closes : List ℚ) (i : ℕ) : Prop :=
  (((cfg.generate_signals closes).getD i dfltRow).signal_state = SignalState.LONG ↔
    ∃ s, ((cfg.generate_signals closes).getD i dfltRow).signal_score = some s ∧
      cfg.threshold < s) ∧
  (((cfg.generate_signals closes).getD i dfltRow).signal_state = SignalState.SHORT ↔
    ∃ s, ((cfg.generate_signals closes).getD i dfltRow).signal_score = some s ∧
      s < -cfg.threshold) ∧
  (((cfg.generate_signals closes).getD i dfltRow).signal_score = none →
    ((cfg.generate_signals closes).getD i dfltRow).signal_state = SignalState.FLAT)

/-- Claim C3's warm-up consequence: every trade the engine opens sits
on a bar whose score is defined. -/
def WarmupNeverTrades (cfg : TSMOM) (closes : List ℚ) : Prop :=
  ∀ cap : ℚ, ∀ t ∈ ((BacktestEngine.init cfg cap).run closes).trades,
    ((cfg.generate_signals closes).getD t.entry_time dfltRow).signal_score ≠ none

/-- Claim C4's property at bar `i`: both momentum columns follow the
lookback formula with their own period, and the score is the 0.4/0.6
blend exactly when both momenta are defined. -/
def MomentumSpecAt (cfg : TSMOM) (closes : List ℚ) (i : ℕ) : Prop :=
  (((cfg.generate_signals closes).getD i dfltRow).momentum_short =
    if cfg.period_short ≤ (i : ℤ) then
      some ((closes.getD i 0 - closes.getD (i - cfg.period_short.toNat) 0) /
        closes.getD (i - cfg.period_short.toNat) 0)
    else none) ∧
  (((cfg.generate_signals closes).getD i dfltRow).momentum_long =
    if cfg.period_long ≤ (i : ℤ) then
      some ((closes.getD i 0 - closes.getD (i - cfg.period_long.toNat) 0) /
        closes.getD (i - cfg.period_long.toNat) 0)
    else none) ∧
  (∀ a b, ((cfg.generate_signals closes).getD i dfltRow).momentum_short = some a →
    ((cfg.generate_signals closes).getD i dfltRow).momentum_long = some b →
    ((cfg.generate_signals closes).getD i dfltRow).signal_score =
      some (2/5 * a + 3/5 * b)) ∧
  ((((cfg.generate_signals closes).getD i dfltRow).momentum_short = none ∨
    ((cfg.generate_signals closes).getD i dfltRow).momentum_long = none) →
    ((cfg.generate_signals closes).getD i dfltRow).signal_score = none)

/-- Claim C5's property at bar `i`: the equity-curve point carries the
bar's own timestamp, and its capital is the initial capital plus the
realized pnl of bars strictly before `i` plus the active trade's
unrealized pnl. -/
def EquityPointSpec (init : ℚ) (sig : List SignalRow) (trades : List Trade)
    (i : ℕ) : Prop :=
  (calcEquityCurve init sig trades).getD i (0, 0) =
    (i, barCapital init trades (eqRows sig) i)

/-- The activity test of the equity loop agrees with "some trade has
`entry_time ≤ idx ≤ exit_time` (open exits counting as infinity)". -/
def ActiveIffExists (trades : List Trade) (idx : ℕ) : Prop :=
  (activeTradeAt trades idx).isSome ↔
    ∃ t ∈ trades, t.entry_time ≤ idx ∧
      (t.exit_time = none ∨ ∃ x, t.exit_time = some x ∧ idx ≤ x)

/-- Claim C6's conclusion for a run: all returned trades closed,
entries in chronological order, and a position still open after the
loop is force-closed at the last bar's index and close and appended
last. -/
def RunClosesEverything (cfg : TSMOM) (cap : ℚ) (closes : List ℚ) : Prop :=
  (∀ t ∈ ((BacktestEngine.init cfg cap).run closes).trades, t.is_closed = true) ∧
  ((BacktestEngine.init cfg cap).run closes).trades.Pairwise
    (fun a b => a.entry_time ≤ b.entry_time) ∧
  (∀ t, (stepAll (cfg.generate_signals closes).enum none SignalState.FLAT
      []).2.1 = some t →
    ((BacktestEngine.init cfg cap).run closes).trades.getLast? =
      some (t.close ((cfg.generate_signals closes).length - 1)
        ((((cfg.generate_signals closes).getLast?).map SignalRow.close).getD 0)))

lemma getD_range_map {α} (f : ℕ → α) (d : α) {n i : ℕ} (h : i < n) :
    ((List.range n).map f).getD i d = f i := by
  simp [List.getD_eq_getElem?_getD, List.getElem?_map, List.getElem?_range h]

lemma getD_mem {α} (l : List α) (d : α) {i : ℕ} (h : i < l.length) :
    l.getD i d ∈ l := by
  rw [List.getD_eq_getElem?_getD, List.getElem?_eq_getElem h]
  exact List.getElem_mem h

lemma generate_signals_length (cfg : TSMOM) (closes : List ℚ) :
    (cfg.generate_signals closes).length = closes.length := by
  simp [TSMOM.generate_signals]

lemma generate_signals_getD (cfg : TSMOM) (closes : List ℚ) {i : ℕ}
    (h : i < closes.length) :
    (cfg.generate_signals closes).getD i dfltRow =
      { close := closes.getD i 0
        momentum_short := (pctChange closes cfg.period_short).getD i none
        momentum_long := (pctChange closes cfg.period_long).getD i none
        signal_score := compositeScore
          ((pctChange closes cfg.period_short).getD i none)
          ((pctChange closes cfg.period_long).getD i none)
        signal_value := signalValue (compositeScore
          ((pctChange closes cfg.period_short).getD i none)
          ((pctChange closes cfg.period_long).getD i none)) cfg.threshold
        signal_state := stateOfValue (signalValue (compositeScore
          ((pctChange closes cfg.period_short).getD i none)
          ((pctChange closes cfg.period_long).getD i none)) cfg.threshold) } := by
  simp only [TSMOM.generate_signals, TSMOM.calculate_returns]
  exact getD_range_map _ _ h

lemma pctChange_getD (prices : List ℚ) (p : ℤ) {i : ℕ}
    (h : i < prices.length) :
    (pctChange prices p).getD i none =
      if 0 ≤ (i : ℤ) - p ∧ (i : ℤ) - p < (prices.length : ℤ) then
        some (prices.getD i 0 / prices.getD ((i : ℤ) - p).toNat 0 - 1)
      else none := by
  simp only [pctChange]
  exact getD_range_map _ _ h

lemma state_ne_flat_score_some {s : Option ℚ} {thr : ℚ}
    (h : stateOfValue (signalValue s thr) ≠ SignalState.FLAT) :
    ∃ q, s = some q := by
  cases s with
  | none => simp [signalValue, stateOfValue] at h
  | some q => exact ⟨q, rfl⟩

lemma pairwise_fst_lt_enumFrom {α} (n : ℕ) (l : List α) :
    List.Pairwise (fun a b : ℕ × α => a.1 < b.1) (l.enumFrom n) := by
  induction l generalizing n with
  | nil => simp
  | cons x xs ih =>
    simp only [List.enumFrom]
    refine List.Pairwise.cons ?_ (ih (n + 1))
    rintro ⟨bi, bx⟩ hb
    have hmem := (List.mk_mem_enumFrom_iff_le_and_getElem?_sub).mp hb
    have : n + 1 ≤ bi := hmem.1
    simpa using this

lemma pairwise_fst_lt_enum {α} (l : List α) :
    List.Pairwise (fun a b : ℕ × α => a.1 < b.1) l.enum :=
  pairwise_fst_lt_enumFrom 0 l

lemma mem_enum_getD {α} {l : List α} {p : ℕ × α} (d : α) (h : p ∈ l.enum) :
    l.getD p.1 d = p.2 ∧ p.1 < l.length := by
  obtain ⟨i, x⟩ := p
  rw [List.mk_mem_enum_iff_getElem?] at h
  have hlen : i < l.length := by
    by_contra hlt
    rw [List.getElem?_eq_none (Nat.le_of_not_lt hlt)] at h
    cases h
  exact ⟨by simp [List.getD_eq_getElem?_getD, h], hlen⟩

lemma close_good {t : Trade} {i : ℕ} (p : ℚ) (h : t.entry_time ≤ i) :
    TradeClosedGood (t.close i p) :=
  ⟨i, p, rfl, rfl, h, rfl, rfl, rfl⟩

lemma stepAll_inv (sig : List SignalRow) (rows : List (ℕ × SignalRow)) :
    ∀ (pos : Option Trade) (st : SignalState) (acc : List Trade),
      List.Pairwise (fun a b : ℕ × SignalRow => a.1 < b.1) rows →
      (∀ p ∈ rows, sig.getD p.1 dfltRow = p.2 ∧ p.1 < sig.length) →
      GoodTrades sig acc →
      (∀ t, pos = some t → OpenGood sig t ∧ ∀ p ∈ rows, t.entry_time ≤ p.1) →
      (∀ a ∈ acc, ∃ xa, a.exit_time = some xa ∧
        (∀ p ∈ rows, xa ≤ p.1) ∧ ∀ t, pos = some t → xa ≤ t.entry_time) →
      GoodTrades sig (stepAll rows pos st acc).1 ∧
      (∀ t, (stepAll rows pos st acc).2.1 = some t → OpenGood sig t) ∧
      (∀ a ∈ (stepAll rows pos st acc).1, ∃ xa, a.exit_time = some xa ∧
        ∀ t, (stepAll rows pos st acc).2.1 = some t → xa ≤ t.entry_time) := by
  induction rows with
  | nil =>
    intro pos st acc _ _ hacc hpos hbound
    refine ⟨hacc, fun t ht => (hpos t ht).1, fun a ha => ?_⟩
    obtain ⟨xa, hxa, _, hlast⟩ := hbound a ha
    exact ⟨xa, hxa, hlast⟩
  | cons hd rest ih =>
    obtain ⟨i, row⟩ := hd
    intro pos st acc hpw hrows hacc hpos hbound
    have hpw' := (List.pairwise_cons.mp hpw).2
    have hheadlt := (List.pairwise_cons.mp hpw).1
    have hrowhead := hrows (i, row) (List.mem_cons_self _ _)
    have hrows' : ∀ p ∈ rest, sig.getD p.1 dfltRow = p.2 ∧ p.1 < sig.length :=
      fun p hp => hrows p (List.mem_cons_of_mem _ hp)
    by_cases hst : row.signal_state = st
    · simp only [stepAll, if_pos hst]
      refine ih pos st acc hpw' hrows' hacc ?_ ?_
      · intro t ht
        exact ⟨(hpos t ht).1,
          fun p hp => (hpos t ht).2 p (List.mem_cons_of_mem _ hp)⟩
      · intro a ha
        obtain ⟨xa, hxa, hall, hlast⟩ := hbound a ha
        exact ⟨xa, hxa, fun p hp => hall p (List.mem_cons_of_mem _ hp), hlast⟩
    · simp only [stepAll, if_neg hst]
      -- the new open position (if the new state is not FLAT)
      set nt : Trade :=
        { entry_time := i, entry_price := row.close
          entry_state := row.signal_state
          exit_time := none, exit_price := none
          pnl := none, pnl_pct := none, bars_held := none } with hnt
      have hntgood : row.signal_state ≠ SignalState.FLAT → OpenGood sig nt := by
        intro hflat
        exact ⟨rfl, hflat, by rw [hnt]; exact (hrowhead.1.symm ▸ rfl), hrowhead.2⟩
      cases pos with
      | none =>
        simp only []
        refine ih _ row.signal_state acc hpw' hrows' hacc ?_ ?_
        · intro t ht
          by_cases hflat : row.signal_state = SignalState.FLAT
          · rw [if_pos hflat] at ht; exact absurd ht (by simp)
          · rw [if_neg hflat] at ht
            have : t = nt := Option.some.inj ht.symm
            subst this
            refine ⟨hntgood hflat, ?_⟩
            intro p hp
            exact Nat.le_of_lt (hheadlt p hp)
        · intro a ha
          obtain ⟨xa, hxa, hall, _⟩ := hbound a ha
          refine ⟨xa, hxa, fun p hp => hall p (List.mem_cons_of_mem _ hp), ?_⟩
          intro t ht
          by_cases hflat : row.signal_state = SignalState.FLAT
          · rw [if_pos hflat] at ht; exact absurd ht (by simp)
          · rw [if_neg hflat] at ht
            have : t = nt := Option.some.inj ht.symm
            subst this
            exact hall (i, row) (List.mem_cons_self _ _)
      | some t =>
        simp only []
        have hopen := hpos t rfl
        have hentle : t.entry_time ≤ i := hopen.2 (i, row) (List.mem_cons_self _ _)
        have htc : TradeClosedGood (t.close i row.close) := close_good _ hentle
        have haccgood : GoodTrades sig (acc ++ [t.close i row.close]) := by
          constructor
          · rw [List.pairwise_append]
            refine ⟨hacc.1, List.pairwise_singleton _ _, ?_⟩
            intro a ha b hb
            have hb' : b = t.close i row.close := by simpa using hb
            subst hb'
            obtain ⟨xa, hxa, _, hlast⟩ := hbound a ha
            exact ⟨xa, hxa, hlast t rfl⟩
          · intro a ha
            rcases List.mem_append.mp ha with ha' | ha'
            · exact hacc.2 a ha'
            · have : a = t.close i row.close := by simpa using ha'
              subst this
              exact ⟨htc, hopen.1.2.1, hopen.1.2.2.1, hopen.1.2.2.2⟩
        have hboundnew : ∀ a ∈ acc ++ [t.close i row.close],
            ∃ xa, a.exit_time = some xa ∧
              (∀ p ∈ rest, xa ≤ p.1) ∧
              ∀ u, (if row.signal_state = SignalState.FLAT then none
                    else some nt) = some u → xa ≤ u.entry_time := by
          intro a ha
          rcases List.mem_append.mp ha with ha' | ha'
          · obtain ⟨xa, hxa, hall, _⟩ := hbound a ha'
            refine ⟨xa, hxa, fun p hp => hall p (List.mem_cons_of_mem _ hp), ?_⟩
            intro u hu
            by_cases hflat : row.signal_state = SignalState.FLAT
            · rw [if_pos hflat] at hu; exact absurd hu (by simp)
            · rw [if_neg hflat] at hu
              have : u = nt := Option.some.inj hu.symm
              subst this
              exact hall (i, row) (List.mem_cons_self _ _)
          · have : a = t.close i row.close := by simpa using ha'
            subst this
            refine ⟨i, rfl, fun p hp => Nat.le_of_lt (hheadlt p hp), ?_⟩
            intro u hu
            by_cases hflat : row.signal_state = SignalState.FLAT
            · rw [if_pos hflat] at hu; exact absurd hu (by simp)
            · rw [if_neg hflat] at hu
              have : u = nt := Option.some.inj hu.symm
              subst this
              exact Nat.le_refl i
        refine ih _ row.signal_state _ hpw' hrows' haccgood ?_ hboundnew
        intro u hu
        by_cases hflat : row.signal_state = SignalState.FLAT
        · rw [if_pos hflat] at hu; exact absurd hu (by simp)
        · rw [if_neg hflat] at hu
          have : u = nt := Option.some.inj hu.symm
          subst this
          exact ⟨hntgood hflat, fun p hp => Nat.le_of_lt (hheadlt p hp)⟩

lemma run_trades_eq (cfg : TSMOM) (cap : ℚ) (closes : List ℚ) :
    ((BacktestEngine.init cfg cap).run closes).trades =
      (match (stepAll (cfg.generate_signals closes).enum none
          SignalState.FLAT []).2.1 with
       | some t =>
         (stepAll (cfg.generate_signals closes).enum none
            SignalState.FLAT []).1 ++
           [t.close ((cfg.generate_signals closes).length - 1)
             ((((cfg.generate_signals closes).getLast?).map
               SignalRow.close).getD 0)]
       | none =>
         (stepAll (cfg.generate_signals closes).enum none
            SignalState.FLAT []).1) := rfl

lemma run_equity_eq (cfg : TSMOM) (cap : ℚ) (closes : List ℚ) :
    ((BacktestEngine.init cfg cap).run closes).equity_curve =
      calcEquityCurve cap (cfg.generate_signals closes)
        ((BacktestEngine.init cfg cap).run closes).trades := rfl

lemma run_trades_good (cfg : TSMOM) (cap : ℚ) (closes : List ℚ) :
    GoodTrades (cfg.generate_signals closes)
      ((BacktestEngine.init cfg cap).run closes).trades := by
  obtain ⟨hgood, hpos, hbound⟩ :=
    stepAll_inv (cfg.generate_signals closes)
      (cfg.generate_signals closes).enum none SignalState.FLAT []
      (pairwise_fst_lt_enum _)
      (fun p hp => mem_enum_getD dfltRow hp)
      ⟨List.Pairwise.nil, by simp⟩
      (by simp)
      (by simp)
  rw [run_trades_eq]
  cases hres : (stepAll (cfg.generate_signals closes).enum none
      SignalState.FLAT []).2.1 with
  | none => exact hgood
  | some t =>
    have hopen := hpos t hres
    have hentlt : t.entry_time < (cfg.generate_signals closes).length :=
      hopen.2.2.2
    have hentle : t.entry_time ≤ (cfg.generate_signals closes).length - 1 := by
      omega
    constructor
    · rw [List.pairwise_append]
      refine ⟨hgood.1, List.pairwise_singleton _ _, ?_⟩
      intro a ha b hb
      have hb' : b = t.close ((cfg.generate_signals closes).length - 1)
          ((((cfg.generate_signals closes).getLast?).map SignalRow.close).getD 0) := by
        simpa using hb
      subst hb'
      obtain ⟨xa, hxa, hlast⟩ := hbound a ha
      exact ⟨xa, hxa, hlast t hres⟩
    · intro a ha
      rcases List.mem_append.mp ha with ha' | ha'
      · exact hgood.2 a ha'
      · have ha'' : a = t.close ((cfg.generate_signals closes).length - 1)
            ((((cfg.generate_signals closes).getLast?).map SignalRow.close).getD 0) := by
          simpa using ha'
        subst ha''
        exact ⟨close_good _ hentle, hopen.2.1, hopen.2.2.1, hentlt⟩

lemma goodTrades_entry_mono {sig : List SignalRow} {trades : List Trade}
    (h : GoodTrades sig trades) :
    trades.Pairwise fun a b => a.entry_time ≤ b.entry_time := by
  refine List.Pairwise.imp_of_mem ?_ h.1
  intro a b ha _ hab
  obtain ⟨xa, hxa, hle⟩ := hab
  obtain ⟨⟨xt, xp, hxt, _, hent, _⟩, _⟩ := h.2 a ha
  rw [hxt] at hxa
  have := Option.some.inj hxa
  omega

lemma equityLoop_length (init : ℚ) (trades : List Trade) :
    ∀ (rows : List (ℕ × ℚ)) (cum : ℚ),
      (equityLoop init trades rows cum).length = rows.length := by
  intro rows
  induction rows with
  | nil => intro cum; rfl
  | cons r rest ih =>
    intro cum
    obtain ⟨idx, price⟩ := r
    simp only [equityLoop, List.length_cons, ih]

lemma equityLoop_getD (init : ℚ) (trades : List Trade) :
    ∀ (rows : List (ℕ × ℚ)) (cum : ℚ) (i : ℕ), i < rows.length →
      (equityLoop init trades rows cum).getD i (0, 0) =
        ((rows.getD i (0, 0)).1,
          cum + (init + realizedBefore trades rows i +
            match activeTradeAt trades (rows.getD i (0, 0)).1 with
            | some t => unrealizedPnl t (rows.getD i (0, 0)).2
            | none => 0)) := by
  intro rows
  induction rows with
  | nil => intro cum i hi; simp at hi
  | cons r rest ih =>
    intro cum i hi
    obtain ⟨idx, price⟩ := r
    cases i with
    | zero =>
      simp only [equityLoop, List.getD_cons_zero, realizedBefore,
        List.take_zero, List.map_nil, List.sum_nil]
      cases hact : activeTradeAt trades idx with
      | none => simp only [hact]; rw [Prod.mk.injEq]; constructor; rfl; ring
      | some t => simp only [hact]; rw [Prod.mk.injEq]; constructor; rfl; ring
    | succ n =>
      have hn : n < rest.length := by simpa using hi
      simp only [equityLoop, List.getD_cons_succ]
      rw [ih _ n hn]
      have hrb : realizedBefore trades ((idx, price) :: rest) (n + 1) =
          barRealized trades (idx, price) + realizedBefore trades rest n := by
        simp [realizedBefore, List.take_succ_cons]
      have hcum2 : (match activeTradeAt trades idx with
          | some t => if t.exit_time = some idx then cum + t.pnl.getD 0 else cum
          | none => cum) = cum + barRealized trades (idx, price) := by
        unfold barRealized
        cases hact : activeTradeAt trades idx with
        | none => simp
        | some t =>
          by_cases hexit : t.exit_time = some idx
          · simp [hexit]
          · simp [hexit]
      rw [hcum2, hrb, Prod.mk.injEq]
      constructor
      · rfl
      · ring

lemma eqRows_length (sig : List SignalRow) : (eqRows sig).length = sig.length := by
  simp [eqRows]

lemma eqRows_getD (sig : List SignalRow) {i : ℕ} (h : i < sig.length) :
    (eqRows sig).getD i (0, 0) = (i, (sig.getD i dfltRow).close) := by
  simp [eqRows, List.getD_eq_getElem?_getD, List.getElem?_map,
    List.getElem?_enum, List.getElem?_eq_getElem h]

lemma active_iff_exists (trades : List Trade) (idx : ℕ) :
    ActiveIffExists trades idx := by
  unfold ActiveIffExists
  rw [activeTradeAt, List.find?_isSome]
  constructor
  · rintro ⟨t, ht, hp⟩
    rw [Bool.and_eq_true] at hp
    refine ⟨t, ht, of_decide_eq_true hp.1, ?_⟩
    cases hx : t.exit_time with
    | none => exact Or.inl rfl
    | some x =>
      refine Or.inr ⟨x, rfl, ?_⟩
      have h2 := hp.2
      rw [hx] at h2
      exact of_decide_eq_true h2
  · rintro ⟨t, ht, h1, h2⟩
    refine ⟨t, ht, ?_⟩
    rw [Bool.and_eq_true]
    refine ⟨decide_eq_true h1, ?_⟩
    rcases h2 with h2 | ⟨x, hx, hle⟩
    · rw [h2]
    · rw [hx]
      exact decide_eq_true hle

/-- C5: the equity curve produced by `_calculate_equity_curve` has one
point per signal row carrying that bar's index as its timestamp; the
capital at bar `i` is the initial capital, plus the pnl realized at
bars strictly before `i` (a trade exiting at bar `i` is realized only
after bar `i`'s capital is written), plus the active trade's
unrealized pnl under the LONG/SHORT sign convention at the live close;
and a trade is active exactly when `entry_time ≤ i ≤ exit_time`. -/
theorem equity_curve_spec (init : ℚ) (sig : List SignalRow)
    (trades : List Trade) :
    (calcEquityCurve init sig trades).length = sig.length ∧
    (∀ i, i < sig.length → EquityPointSpec init sig trades i) ∧
    (∀ idx, ActiveIffExists trades idx) := by
  refine ⟨?_, ?_, fun idx => active_iff_exists trades idx⟩
  · rw [calcEquityCurve, equityLoop_length, eqRows_length]
  · intro i hi
    unfold EquityPointSpec calcEquityCurve barCapital
    rw [equityLoop_getD init trades (eqRows sig) 0 i
      (by rw [eqRows_length]; exact hi)]
    rw [eqRows_getD sig hi]
    rw [Prod.mk.injEq]
    exact ⟨rfl, by ring_nf⟩

/-- C3: per bar, the signal state is LONG exactly when the score is
defined and exceeds the threshold, SHORT exactly when it is below the
negated threshold, and FLAT whenever the score is undefined; and no
trade the engine produces is entered at a bar with an undefined score
(warm-up bars never open positions). -/
theorem signal_state_classification (cfg : TSMOM) (closes : List ℚ)
    (hthr : 0 ≤ cfg.threshold) :
    (∀ i, i < closes.length → StateClassifiedAt cfg closes i) ∧
    WarmupNeverTrades cfg closes := by
  constructor
  · intro i hi
    unfold StateClassifiedAt
    rw [generate_signals_getD cfg closes hi]
    dsimp only
    cases hq : compositeScore ((pctChange closes cfg.period_short).getD i none)
        ((pctChange closes cfg.period_long).getD i none) with
    | none =>
      refine ⟨?_, ?_, fun _ => rfl⟩
      · simp [signalValue, stateOfValue]
      · simp [signalValue, stateOfValue]
    | some q =>
      by_cases h1 : q < -cfg.threshold
      · have hstate : stateOfValue (signalValue (some q) cfg.threshold) =
            SignalState.SHORT := by
          simp [signalValue, stateOfValue, h1]
        refine ⟨?_, ?_, by simp⟩
        · rw [hstate]
          refine iff_of_false (by simp) ?_
          rintro ⟨s, hqs, hts⟩
          rw [Option.some.injEq] at hqs
          subst hqs
          linarith
        · rw [hstate]
          exact iff_of_true rfl ⟨q, rfl, h1⟩
      · by_cases h2 : q > cfg.threshold
        · have hstate : stateOfValue (signalValue (some q) cfg.threshold) =
              SignalState.LONG := by
            simp [signalValue, stateOfValue, h1, h2]
          refine ⟨?_, ?_, by simp⟩
          · rw [hstate]
            exact iff_of_true rfl ⟨q, rfl, h2⟩
          · rw [hstate]
            refine iff_of_false (by simp) ?_
            rintro ⟨s, hqs, hts⟩
            rw [Option.some.injEq] at hqs
            subst hqs
            exact h1 hts
        · have hstate : stateOfValue (signalValue (some q) cfg.threshold) =
              SignalState.FLAT := by
            simp [signalValue, stateOfValue, h1, h2]
          refine ⟨?_, ?_, by simp⟩
          · rw [hstate]
            refine iff_of_false (by simp) ?_
            rintro ⟨s, hqs, hts⟩
            rw [Option.some.injEq] at hqs
            subst hqs
            exact h2 hts
          · rw [hstate]
            refine iff_of_false (by simp) ?_
            rintro ⟨s, hqs, hts⟩
            rw [Option.some.injEq] at hqs
            subst hqs
            exact h1 hts
  · intro cap t ht hscore
    obtain ⟨_, hflat, hlink, hlt⟩ := (run_trades_good cfg cap closes).2 t ht
    have hi : t.entry_time < closes.length := by
      rwa [generate_signals_length] at hlt
    rw [generate_signals_getD cfg closes hi] at hlink hscore
    dsimp only at hlink hscore
    rw [hscore] at hlink
    exact hflat (by rw [hlink]; rfl)

/-- C4: for each bar `i`, each momentum column equals
`(close[i] - close[i-period]) / close[i-period]` once `i ≥ period` and
is undefined before that, each with its own period; the score is the
`0.4/0.6` blend exactly when both momenta are defined; and the signal
frame keeps one row per input bar. -/
theorem momentum_score_spec (cfg : TSMOM) (closes : List ℚ)
    (hs : 0 < cfg.period_short) (hl : 0 < cfg.period_long)
    (hnz : ∀ c ∈ closes, c ≠ 0) :
    (cfg.generate_signals closes).length = closes.length ∧
    ∀ i, i < closes.length → MomentumSpecAt cfg closes i := by
  refine ⟨generate_signals_length cfg closes, ?_⟩
  intro i hi
  have key : ∀ p : ℤ, 0 < p →
      (pctChange closes p).getD i none =
        if p ≤ (i : ℤ) then
          some ((closes.getD i 0 - closes.getD (i - p.toNat) 0) /
            closes.getD (i - p.toNat) 0)
        else none := by
    intro p hp
    rw [pctChange_getD closes p hi]
    by_cases hle : p ≤ (i : ℤ)
    · rw [if_pos (by constructor <;> omega), if_pos hle]
      have hj : ((i : ℤ) - p).toNat = i - p.toNat := by omega
      rw [hj]
      have hjlt : i - p.toNat < closes.length := by omega
      have hcj : closes.getD (i - p.toNat) 0 ≠ 0 :=
        hnz _ (getD_mem closes 0 hjlt)
      rw [Option.some.injEq, sub_div, div_self hcj]
    · rw [if_neg (by rintro ⟨hc, -⟩; omega), if_neg hle]
  unfold MomentumSpecAt
  rw [generate_signals_getD cfg closes hi]
  dsimp only
  refine ⟨key _ hs, key _ hl, ?_, ?_⟩
  · intro a b hma hmb
    rw [hma, hmb]
    rfl
  · rintro (hma | hmb)
    · rw [hma]
      rfl
    · rw [hmb]
      cases (pctChange closes cfg.period_short).getD i none <;> rfl

/-- C1: every trade the engine returns is closed with the sign
convention — a LONG trade's pnl is `exit_price - entry_price`, a SHORT
trade's pnl is `entry_price - exit_price`, and `pnl_pct` is
`pnl / entry_price`; these are exactly the fields `Trade.close` wrote,
and nothing mutates them afterwards. -/
theorem run_trades_sign_law (cfg : TSMOM) (cap : ℚ) (closes : List ℚ) :
    ∀ t ∈ ((BacktestEngine.init cfg cap).run closes).trades, SignLawFor t := by
  intro t ht
  obtain ⟨⟨xt, xp, hxt, hxp, hle, hbars, hpnl, hpct⟩, hflat, _, _⟩ :=
    (run_trades_good cfg cap closes).2 t ht
  refine ⟨xp, if t.entry_state = SignalState.LONG then xp - t.entry_price
      else t.entry_price - xp, hxp, hpnl, hpct, ?_, ?_⟩
  · intro hLONG
    rw [if_pos hLONG]
  · intro hSHORT
    rw [if_neg (by rw [hSHORT]; simp)]

/-- C2, counterexample: on prices `[100, 110, 90]` with both periods 1
and threshold 0 the engine emits a LONG trade over `[1, 2]` and a
SHORT trade over `[2, 2]`, whose closed intervals share the timestamp
2 — so "the closed intervals of distinct trades never overlap" fails
as stated. -/
theorem run_trades_overlap_cex :
    ¬ ((BacktestEngine.init (TSMOM.init 1 1 0) 10000).run
        [100, 110, 90]).trades.Pairwise
      (fun a b => ∀ xa xb, a.exit_time = some xa → b.exit_time = some xb →
        min xa xb < max a.entry_time b.entry_time) := by
  intro h
  have htr : ((BacktestEngine.init (TSMOM.init 1 1 0) 10000).run
      [100, 110, 90]).trades =
      [ { entry_time := 1, entry_price := 110, entry_state := SignalState.LONG
          exit_time := some 2, exit_price := some 90
          pnl := some (-20), pnl_pct := some (-2/11), bars_held := some 1 },
        { entry_time := 2, entry_price := 90, entry_state := SignalState.SHORT
          exit_time := some 2, exit_price := some 90
          pnl := some 0, pnl_pct := some 0, bars_held := some 0 } ] := by
    decide!
  rw [htr] at h
  have h12 := (List.pairwise_cons.mp h).1 _ (List.mem_cons_self _ _)
  have hcontra := h12 2 2 rfl rfl
  simp at hcontra

/-- C2, amended: distinct trades can share at most a boundary
timestamp — in emission order, each earlier trade's exit_time exists
and is at most the later trade's entry_time, so the interiors of the
closed holding intervals never overlap. -/
theorem run_trades_separated (cfg : TSMOM) (cap : ℚ) (closes : List ℚ) :
    ((BacktestEngine.init cfg cap).run closes).trades.Pairwise TradeSep :=
  (run_trades_good cfg cap closes).1

/-- C6: after a non-empty run every returned trade is closed, the
trades are in chronological entry order, and a position still open
when the signals end is force-closed at the last bar's index and close
price and appended as the final trade. -/
theorem run_closes_everything (cfg : TSMOM) (cap : ℚ) (closes : List ℚ)
    (_hne : closes ≠ []) : RunClosesEverything cfg cap closes := by
  have hgood := run_trades_good cfg cap closes
  refine ⟨?_, goodTrades_entry_mono hgood, ?_⟩
  · intro t ht
    obtain ⟨⟨xt, xp, hxt, hxp, _⟩, _⟩ := hgood.2 t ht
    simp [Trade.is_closed, hxp]
  · intro t hpos
    rw [run_trades_eq, hpos]
    exact List.getLast?_concat _

/-- C7, counterexample: the source constructor accepts a non-positive
short period, a non-positive long period and a negative threshold and
stores them unchanged, while the specification's checked constructor
rejects the same arguments — construction-time rejection does not
happen in the code. -/
theorem constructor_validation_cex :
    (TSMOM.init (-1) 0 (-1)).period_short = -1 ∧
    (TSMOM.init (-1) 0 (-1)).period_long = 0 ∧
    (TSMOM.init (-1) 0 (-1)).threshold = -1 ∧
    checkedTSMOMConstructor (-1) 0 (-1) = none := by
  refine ⟨rfl, rfl, rfl, ?_⟩
  rw [checkedTSMOMConstructor, if_neg]
  rintro ⟨hps, -, -⟩
  omega

/-- C7, amended: the constructors perform no validation at all — both
`TSMOM.__init__` and `BacktestEngine.__init__` accept every argument,
including non-positive periods and negative thresholds, and store the
values unchanged. -/
theorem constructors_accept_all (ps pl : ℤ) (thr : ℚ) (s : TSMOM) (c : ℚ) :
    (TSMOM.init ps pl thr).period_short = ps ∧
    (TSMOM.init ps pl thr).period_long = pl ∧
    (TSMOM.init ps pl thr).threshold = thr ∧
    (BacktestEngine.init s c).strategy = s ∧
    (BacktestEngine.init s c).initial_capital = c :=
  ⟨rfl, rfl, rfl, rfl, rfl⟩

/-- C8: a zero-length price sequence yields an empty result — no
trades and an empty equity curve — with no failure. -/
theorem run_empty_input (cfg : TSMOM) (cap : ℚ) :
    (BacktestEngine.init cfg cap).run [] =
      { trades := [], equity_curve := [] } := rfl

lemma le_foldl_max (xs : List ℕ) : ∀ a, a ≤ xs.foldl max a := by
  induction xs with
  | nil => intro a; exact Nat.le_refl a
  | cons x xs ih =>
    intro a
    exact le_trans (Nat.le_max_left a x) (ih (max a x))

lemma mem_le_foldl_max {b : ℕ} (xs : List ℕ) :
    ∀ a, b ∈ xs → b ≤ xs.foldl max a := by
  induction xs with
  | nil => intro a hb; cases hb
  | cons x xs ih =>
    intro a hb
    rcases List.mem_cons.mp hb with hb | hb
    · subst hb
      exact le_trans (Nat.le_max_right a b) (le_foldl_max xs (max a b))
    · exact ih (max a x) hb

lemma foldl_min_le (xs : List ℕ) : ∀ a, xs.foldl min a ≤ a := by
  induction xs with
  | nil => intro a; exact Nat.le_refl a
  | cons x xs ih =>
    intro a
    exact le_trans (ih (min a x)) (Nat.min_le_left a x)

lemma foldl_min_le_mem {b : ℕ} (xs : List ℕ) :
    ∀ a, b ∈ xs → xs.foldl min a ≤ b := by
  induction xs with
  | nil => intro a hb; cases hb
  | cons x xs ih =>
    intro a hb
    rcases List.mem_cons.mp hb with hb | hb
    · subst hb
      exact le_trans (foldl_min_le xs (min a b)) (Nat.min_le_right a b)
    · exact ih (min a x) hb

lemma le_pyMax {l : List ℕ} {b : ℕ} (h : b ∈ l) (d : ℕ) : b ≤ pyMax l d := by
  cases l with
  | nil => cases h
  | cons x xs =>
    simp only [pyMax]
    rcases List.mem_cons.mp h with hb | hb
    · subst hb
      exact le_foldl_max xs b
    · exact mem_le_foldl_max xs x hb

lemma pyMin_le {l : List ℕ} {b : ℕ} (h : b ∈ l) (d : ℕ) : pyMin l d ≤ b := by
  cases l with
  | nil => cases h
  | cons x xs =>
    simp only [pyMin]
    rcases List.mem_cons.mp h with hb | hb
    · subst hb
      exact foldl_min_le xs b
    · exact foldl_min_le_mem xs x hb

/-- C9, counterexample: a result containing a closed trade held zero
bars (entered and force-closed at the same timestamp) and a closed
trade held 5 bars reports `min_bars_held = 5` and `avg_bars_held = 5`:
the truthiness filter `if t.bars_held` in `get_summary_stats` drops
the zero-duration closed trade, so not every closed trade contributes
to the holding-duration statistics. -/
theorem bars_held_zero_excluded_cex :
    (Trade.close ⟨3, 100, SignalState.LONG, none, none, none, none, none⟩
      3 100).is_closed = true ∧
    (Trade.close ⟨3, 100, SignalState.LONG, none, none, none, none, none⟩
      3 100).bars_held = some 0 ∧
    (getSummaryStats
      [ Trade.close ⟨3, 100, SignalState.LONG, none, none, none, none, none⟩
          3 100,
        Trade.close ⟨10, 100, SignalState.LONG, none, none, none, none, none⟩
          15 110 ]).min_bars_held = 5 ∧
    (getSummaryStats
      [ Trade.close ⟨3, 100, SignalState.LONG, none, none, none, none, none⟩
          3 100,
        Trade.close ⟨10, 100, SignalState.LONG, none, none, none, none, none⟩
          15 110 ]).avg_bars_held = 5 := by
  decide!

/-- C9, amended: the holding-duration statistics are computed over the
closed trades whose `bars_held` is set and non-zero — every such
trade's duration lies between the reported minimum and maximum, while
closed trades with `bars_held = 0` are excluded by the truthiness
filter. -/
theorem bars_held_stats_over_nonzero (trades : List Trade) :
    ∀ t ∈ trades, t.is_closed = true → ∀ b, t.bars_held = some b → b ≠ 0 →
      (getSummaryStats trades).min_bars_held ≤ b ∧
      b ≤ (getSummaryStats trades).max_bars_held := by
  intro t ht hclosed b hb hb0
  have htc : t ∈ trades.filter (fun t => t.is_closed) :=
    List.mem_filter.mpr ⟨ht, hclosed⟩
  cases hc : trades.filter (fun t => t.is_closed) with
  | nil => rw [hc] at htc; cases htc
  | cons y ys =>
    have hbars : b ∈ (y :: ys).filterMap (fun t =>
        match t.bars_held with
        | some b => if b = 0 then none else some b
        | none => none) := by
      rw [← hc]
      refine List.mem_filterMap.mpr ⟨t, htc, ?_⟩
      rw [hb]
      simp [hb0]
    have hmin : (getSummaryStats trades).min_bars_held =
        pyMin ((y :: ys).filterMap (fun t =>
          match t.bars_held with
          | some b => if b = 0 then none else some b
          | none => none)) 0 := by
      unfold getSummaryStats
      rw [hc]
    have hmax : (getSummaryStats trades).max_bars_held =
        pyMax ((y :: ys).filterMap (fun t =>
          match t.bars_held with
          | some b => if b = 0 then none else some b
          | none => none)) 0 := by
      unfold getSummaryStats
      rw [hc]
    exact ⟨hmin ▸ pyMin_le hbars 0, hmax ▸ le_pyMax hbars 0⟩

/-- C10: on any non-empty price list with positive periods the first
equity-curve point is `(0, initial_capital)`: index 0 lies in the
warm-up window, so the first bar is FLAT, no trade can be active
there, and no pnl has been realized yet. -/
theorem equity_starts_at_initial_capital (cfg : TSMOM) (cap : ℚ)
    (closes : List ℚ) (hne : closes ≠ [])
    (hs : 0 < cfg.period_short) (_hl : 0 < cfg.period_long) :
    ((BacktestEngine.init cfg cap).run closes).equity_curve.head? =
      some (0, cap) := by
  have hlen : 0 < closes.length := List.length_pos.mpr hne
  have hsig0 : ((cfg.generate_signals closes).getD 0 dfltRow).signal_state =
      SignalState.FLAT := by
    rw [generate_signals_getD cfg closes hlen]
    have hms : (pctChange closes cfg.period_short).getD 0 none = none := by
      rw [pctChange_getD closes _ hlen, if_neg]
      rintro ⟨h1, -⟩
      omega
    dsimp only
    rw [hms]
    rfl
  have hgood := run_trades_good cfg cap closes
  have hnone : activeTradeAt
      ((BacktestEngine.init cfg cap).run closes).trades 0 = none := by
    rw [activeTradeAt]
    refine List.find?_eq_none.mpr ?_
    intro t ht hp
    rw [Bool.and_eq_true] at hp
    have hent : t.entry_time ≤ 0 := of_decide_eq_true hp.1
    have hent0 : t.entry_time = 0 := Nat.le_zero.mp hent
    obtain ⟨_, hflat, hlink, _⟩ := hgood.2 t ht
    rw [hent0, hsig0] at hlink
    exact hflat hlink
  have hlensig : 0 < (cfg.generate_signals closes).length := by
    rw [generate_signals_length]
    exact hlen
  have hgetD : ((BacktestEngine.init cfg cap).run closes).equity_curve.getD 0
      (0, 0) = (0, cap) := by
    rw [run_equity_eq, calcEquityCurve]
    rw [equityLoop_getD cap _ (eqRows (cfg.generate_signals closes)) 0 0
      (by rw [eqRows_length]; exact hlensig)]
    rw [eqRows_getD _ hlensig]
    simp only [hnone, realizedBefore, List.take_zero, List.map_nil,
      List.sum_nil]
    norm_num
  have hleneq : 0 <
      ((BacktestEngine.init cfg cap).run closes).equity_curve.length := by
    rw [run_equity_eq, calcEquityCurve, equityLoop_length, eqRows_length]
    exact hlensig
  rw [List.getD_eq_getElem?_getD, List.getElem?_eq_getElem hleneq] at hgetD
  simp only [Option.getD_some] at hgetD
  rw [List.head?_eq_getElem?, List.getElem?_eq_getElem hleneq, hgetD]

/-- Witness for C1 at a concrete run: the LONG trade the engine emits
on `[100, 110, 90]` satisfies the sign law. -/
theorem run_trades_sign_law_witness :
    (⟨1, 110, SignalState.LONG, some 2, some 90, some (-20), some (-2/11),
        some 1⟩ : Trade) ∈
      ((BacktestEngine.init (TSMOM.init 1 1 0) 10000).run
        [100, 110, 90]).trades ∧
    SignLawFor ⟨1, 110, SignalState.LONG, some 2, some 90, some (-20),
      some (-2/11), some 1⟩ :=
  ⟨by decide!, run_trades_sign_law (TSMOM.init 1 1 0) 10000 [100, 110, 90]
    ⟨1, 110, SignalState.LONG, some 2, some 90, some (-20), some (-2/11),
      some 1⟩ (by decide!)⟩

/-- Witness for C3 at a concrete configuration and price list. -/
theorem signal_state_classification_witness :
    (0 : ℚ) ≤ (TSMOM.init 1 1 0).threshold ∧
    ((∀ i, i < ([100, 110, 90] : List ℚ).length →
        StateClassifiedAt (TSMOM.init 1 1 0) [100, 110, 90] i) ∧
      WarmupNeverTrades (TSMOM.init 1 1 0) [100, 110, 90]) :=
  ⟨by decide!,
    signal_state_classification (TSMOM.init 1 1 0) [100, 110, 90] (by decide!)⟩

/-- Witness for C4 at a concrete configuration and price list. -/
theorem momentum_score_spec_witness :
    (0 : ℤ) < (TSMOM.init 1 1 0).period_short ∧
    (0 : ℤ) < (TSMOM.init 1 1 0).period_long ∧
    (∀ c ∈ ([100, 110, 90] : List ℚ), c ≠ 0) ∧
    (((TSMOM.init 1 1 0).generate_signals [100, 110, 90]).length =
        ([100, 110, 90] : List ℚ).length ∧
      ∀ i, i < ([100, 110, 90] : List ℚ).length →
        MomentumSpecAt (TSMOM.init 1 1 0) [100, 110, 90] i) :=
  ⟨by decide!, by decide!, by decide!,
    momentum_score_spec (TSMOM.init 1 1 0) [100, 110, 90]
      (by decide!) (by decide!) (by decide!)⟩

/-- Witness for C5 at concrete inputs. -/
theorem equity_curve_spec_witness :
    (calcEquityCurve 5 [dfltRow] []).length = [dfltRow].length ∧
    (∀ i, i < [dfltRow].length → EquityPointSpec 5 [dfltRow] [] i) ∧
    (∀ idx, ActiveIffExists ([] : List Trade) idx) :=
  equity_curve_spec 5 [dfltRow] []

/-- Witness for C6 at a concrete non-empty run. -/
theorem run_closes_everything_witness :
    ([100, 110, 90] : List ℚ) ≠ [] ∧
    RunClosesEverything (TSMOM.init 1 1 0) 10000 [100, 110, 90] :=
  ⟨by decide!,
    run_closes_everything (TSMOM.init 1 1 0) 10000 [100, 110, 90] (by decide!)⟩

/-- Witness for C9's amended statement at a concrete result. -/
theorem bars_held_stats_over_nonzero_witness :
    (Trade.close ⟨10, 100, SignalState.LONG, none, none, none, none, none⟩
        15 110) ∈
      [Trade.close ⟨10, 100, SignalState.LONG, none, none, none, none, none⟩
        15 110] ∧
    (Trade.close ⟨10, 100, SignalState.LONG, none, none, none, none, none⟩
      15 110).is_closed = true ∧
    (Trade.close ⟨10, 100, SignalState.LONG, none, none, none, none, none⟩
      15 110).bars_held = some 5 ∧
    (5 : ℕ) ≠ 0 ∧
    ((getSummaryStats
        [Trade.close ⟨10, 100, SignalState.LONG, none, none, none, none, none⟩
          15 110]).min_bars_held ≤ 5 ∧
      (5 : ℕ) ≤ (getSummaryStats
        [Trade.close ⟨10, 100, SignalState.LONG, none, none, none, none, none⟩
          15 110]).max_bars_held) :=
  ⟨by decide!, by decide!, by decide!, by decide,
    bars_held_stats_over_nonzero
      [Trade.close ⟨10, 100, SignalState.LONG, none, none, none, none, none⟩
        15 110]
      (Trade.close ⟨10, 100, SignalState.LONG, none, none, none, none, none⟩
        15 110) (by decide!) (by decide!) 5 (by decide!) (by decide)⟩

/-- Witness for C10 at a concrete non-empty run with positive periods. -/
theorem equity_starts_at_initial_capital_witness :
    ([100, 110, 90] : List ℚ) ≠ [] ∧
    (0 : ℤ) < (TSMOM.init 1 1 0).period_short ∧
    (0 : ℤ) < (TSMOM.init 1 1 0).period_long ∧
    ((BacktestEngine.init (TSMOM.init 1 1 0) 10000).run
      [100, 110, 90]).equity_curve.head? = some (0, 10000) :=
  ⟨by decide!, by decide!, by decide!,
    equity_starts_at_initial_capital (TSMOM.init 1 1 0) 10000 [100, 110, 90]
      (by decide!) (by decide!) (by decide!)⟩
